import Mathlib

/-!
# test-server: a diagnostic HTTP probe (`main.go`)

A shallow embedding of the request handlers `echo`, `call`, `health`, `live`,
`catchall` and of the listener set built in `main`, followed by the properties
of the handlers and of the route tables.

Conventions of the embedding.

* A Go `string` or `[]byte` that holds text is the list of its runes
  (`GoString`); the string literals of the program are ASCII.
* `http.ResponseWriter` is a record of what the handler has sent: whether the
  header went out, the status code, and the body written so far.  The first
  `Write` sends the header with status 200 when none was sent, and a
  `WriteHeader` after the header went out changes nothing.
* `ioutil.ReadAll` on a body yields the bytes read together with an optional
  error; both are fields of the request (or of the downstream response).
* `http.Get` and the verb `%q` (`strconv.Quote`) are parameters of `call` and
  `catchall`; every handler returns the writer it leaves behind, and `call`
  also returns the URLs it passed to `http.Get`.
* `log.Printf` output is not part of the embedding.
* Wall-clock instants and durations are integers (nanoseconds).
* A port is a natural number; the program does no arithmetic on ports.
-/

namespace TestServer

/-! ## Strings -/

/-- A Go string or byte slice holding text, as the list of its runes. -/
abbrev GoString := List Char

/-- The predicate `unicode.IsSpace`: the Latin-1 white space characters, and
above Latin-1 the code points with the Unicode property White_Space. -/
def IsSpace (r : Char) : Bool :=
  let n := r.toNat
  if n ≤ 0xFF then
    n == 0x09 || n == 0x0A || n == 0x0B || n == 0x0C || n == 0x0D || n == 0x20
      || n == 0x85 || n == 0xA0
  else
    n == 0x1680 || (decide (0x2000 ≤ n) && decide (n ≤ 0x200A)) || n == 0x2028 || n == 0x2029
      || n == 0x202F || n == 0x205F || n == 0x3000

/-- The function `strings.TrimSpace`: the leading white space is dropped, then
the trailing white space. -/
def TrimSpace (s : GoString) : GoString :=
  (s.dropWhile IsSpace).rdropWhile IsSpace

/-- The function `strings.HasPrefix`:
`len(s) >= len(p) && s[0:len(p)] == p`. -/
def HasPrefix (s p : GoString) : Bool :=
  decide (s.length ≥ p.length) && decide (s.take p.length = p)

/-- The verb `%v` on an `int`: its decimal digits, with a minus sign when
negative. -/
def formatInt : Int → GoString
  | Int.ofNat n => (Nat.toDigits 10 n)
  | Int.negSucc n => '-' :: Nat.toDigits 10 (n + 1)

/-- The function `text.IndentBytes` of the package `golang-text`, a dependency
that `main.go` imports as `text` (`Indent` is `IndentBytes` on the bytes of its
arguments). The package documents it as inserting the prefix at the beginning
of each non-empty line, the end-of-line marker being the newline: a loop over
the bytes `c` of `b`, which appends the prefix when `c` begins a line and is
not a newline, then appends `c`; a line begins at the start of `b` and after
each newline. -/
def IndentBytes (b pfx : GoString) : GoString :=
  (b.foldl
    (fun (st : GoString × Bool) (c : Char) =>
      ((if st.2 && c != '\n' then st.1 ++ pfx else st.1) ++ [c], c == '\n'))
    ([], true)).1

/-- The function `text.Indent`. -/
def Indent (s pfx : GoString) : GoString := IndentBytes s pfx

/-! ## Requests and response writers -/

/-- What a handler reads of an `*http.Request`: the parsed query
`r.URL.Query()` (keys with their values), and the outcome of
`ioutil.ReadAll(r.Body)`, the bytes read and the error if there is one. -/
structure Request where
  Query : List (GoString × List GoString)
  Body : GoString
  BodyErr : Option GoString
deriving DecidableEq, Repr

/-- An `http.ResponseWriter`, as the response sent so far. -/
structure ResponseWriter where
  wroteHeader : Bool
  status : Nat
  body : GoString
deriving DecidableEq, Repr

/-- The writer a handler is given: nothing sent; a handler that returns without
sending a header answers 200. -/
def ResponseWriter.fresh : ResponseWriter := ⟨false, 200, []⟩

/-- The method `WriteHeader`: the status line goes out once. -/
def ResponseWriter.WriteHeader (w : ResponseWriter) (code : Nat) : ResponseWriter :=
  if w.wroteHeader then w else { w with wroteHeader := true, status := code }

/-- The method `Write`: sends the header with 200 if none was sent, then the
data. -/
def ResponseWriter.Write (w : ResponseWriter) (p : GoString) : ResponseWriter :=
  let w1 := if !w.wroteHeader then w.WriteHeader 200 else w
  { w1 with body := w1.body ++ p }

/-- The call `fmt.Fprintf(w, ...)`, given the formatted text: one `Write`. -/
def Fprintf (w : ResponseWriter) (formatted : GoString) : ResponseWriter :=
  w.Write formatted

def StatusServiceUnavailable : Nat := 503

def StatusInternalServerError : Nat := 500

/-- The downstream `*http.Response` as `call` uses it: the status code and
the outcome of `ioutil.ReadAll(resp.Body)`. -/
structure Response where
  StatusCode : Int
  Body : GoString
  BodyErr : Option GoString
deriving DecidableEq, Repr

/-! ## Configuration and handlers -/

def healthPath : GoString := "/health".toList

def echoPath : GoString := "/echo".toList

def livePath : GoString := "/live".toList

def callPath : GoString := "/call".toList

structure config where
  servingPort : Nat
  healthCheckPort : Nat
  livenessPort : Nat
  healthy : Bool
  livenessDelay : Int
  id : GoString
deriving DecidableEq, Repr

/-- The handler `cfg.live(delay)`: `start` is `time.Now()` when the handler is
built, `now` is `time.Now()` when a request is served. -/
def config.live (cfg : config) (delay : Int) (start : Int) (now : Int)
    (w : ResponseWriter) (_r : Request) : ResponseWriter :=
  let live := start + delay
  if now > live then
    Fprintf w (cfg.id ++ " - live".toList)
  else
    w.WriteHeader StatusServiceUnavailable

/-- The handler `cfg.health(healthy)`. -/
def config.health (cfg : config) (healthy : Bool)
    (w : ResponseWriter) (_r : Request) : ResponseWriter :=
  if healthy then
    Fprintf w (cfg.id ++ " - healthy".toList)
  else
    w.WriteHeader StatusServiceUnavailable

/-- The handler `cfg.echo`. -/
def config.echo (cfg : config) (w : ResponseWriter) (r : Request) : ResponseWriter :=
  let body := r.Body
  let err := r.BodyErr
  let w1 := if err.isSome then w.WriteHeader StatusInternalServerError else w
  Fprintf w1 (cfg.id ++ " echoing: ".toList ++ body)

/-- The handler `cfg.catchall`; `Quote` is the verb `%q`. -/
def config.catchall (cfg : config) (Quote : GoString → GoString)
    (w : ResponseWriter) (r : Request) : ResponseWriter :=
  let body := r.Body
  let err := r.BodyErr
  let w1 := if err.isSome then w.WriteHeader StatusInternalServerError else w
  Fprintf w1 (cfg.id ++ " default handler echoing: ".toList ++ Quote body)

/-- Lines 149-165 of `call`: the target is the first value of the query
parameter `target` when the key is there with a non-empty first value, else the
request body; the error is the one of reading the body (on which `call` sends
status 500 and returns); the target is then trimmed. -/
def callTarget (r : Request) : Except GoString GoString :=
  let fromBody : Except GoString GoString :=
    match r.BodyErr with
    | some err => .error err
    | none => .ok r.Body
  let target : Except GoString GoString :=
    match r.Query.lookup "target".toList with
    | some (t0 :: _) => if t0 ≠ [] then .ok t0 else fromBody
    | _ => fromBody
  target.map TrimSpace

/-- Lines 173-176 of `call`: a target that does not start with `http` gets
`http://` in front. -/
def callURL (target : GoString) : GoString :=
  if !HasPrefix target "http".toList then "http://".toList ++ target else target

/-- Lines 185-190 of `call`: the downstream body as a string, or the
placeholder when reading it failed. -/
def callBody (resp : Response) : GoString :=
  match resp.BodyErr with
  | some err => "could not reading body: ".toList ++ err
  | none => resp.Body

/-- The text `call` writes on success (lines 194-201). -/
def callReport (cfg : config) (target : GoString) (resp : Response) : GoString :=
  "Server:\n\t".toList ++ cfg.id ++ "\nCalled:\n\t".toList ++ target
    ++ "\nResponse Status Code:\n\t".toList ++ formatInt resp.StatusCode
    ++ "\nResponse Body:\n".toList ++ Indent (callBody resp) "\t".toList

/-- The text `call` writes when there is no target (line 169). -/
def noTargetMessage : GoString :=
  "No target to call - use the ?target query parameter or pass a URL as the request body.".toList

/-- The handler `cfg.call`; `Quote` is the verb `%q`, `Get` is `http.Get` (the
error text, or the response). The second component lists the URLs passed to
`Get`. -/
def config.call (cfg : config) (Quote : GoString → GoString)
    (Get : GoString → Except GoString Response)
    (w : ResponseWriter) (r : Request) : ResponseWriter × List GoString :=
  match callTarget r with
  | .error _ => (w.WriteHeader StatusInternalServerError, [])
  | .ok target =>
    if target.length = 0 then
      (Fprintf (w.WriteHeader StatusInternalServerError) noTargetMessage, [])
    else
      let target := callURL target
      match Get target with
      | .error err =>
        ((Fprintf w (cfg.id ++ " GET ".toList ++ Quote target ++ " failed: ".toList ++ err)).WriteHeader
          StatusInternalServerError, [target])
      | .ok resp =>
        (Fprintf w (callReport cfg target resp), [target])

/-! ## The listener set of `main` -/

/-- The handler values that `main` registers, by name. -/
inductive Handler where
  | echo
  | call
  | health (healthy : Bool)
  | live (delay : Int)
  | catchall
deriving DecidableEq, Repr, Inhabited

/-- What a registered handler does with a request: `start` is the time at which
`main` built the handlers and `now` the time of the request. -/
def Handler.ServeHTTP (cfg : config) (Quote : GoString → GoString)
    (Get : GoString → Except GoString Response) (start now : Int)
    (h : Handler) (w : ResponseWriter) (r : Request) : ResponseWriter × List GoString :=
  match h with
  | .echo => (cfg.echo w r, [])
  | .call => cfg.call Quote Get w r
  | .health healthy => (cfg.health healthy w r, [])
  | .live delay => (cfg.live delay start now w r, [])
  | .catchall => (cfg.catchall Quote w r, [])

/-- An `http.ServeMux`: the registered patterns with their handlers, in the
order of registration. -/
structure ServeMux where
  m : List (GoString × Handler)
deriving DecidableEq, Repr

def NewServeMux : ServeMux := ⟨[]⟩

/-- The method `HandleFunc`: it panics (`none`) on an empty pattern and on a
pattern that is registered already. -/
def ServeMux.HandleFunc (mux : ServeMux) (pattern : GoString) (h : Handler) :
    Option ServeMux :=
  if pattern = [] then none
  else if (mux.m.lookup pattern).isSome then none
  else some ⟨mux.m ++ [(pattern, h)]⟩

/-- A Go map from port to `*http.ServeMux`, with one entry per key. -/
abbrev ServerMap := List (Nat × ServeMux)

/-- The assignment `m[k] = v`, which is also what an entry of a map literal
does: a later entry with the same key replaces the earlier one. -/
def ServerMap.set : ServerMap → Nat → ServeMux → ServerMap
  | [], k, v => [(k, v)]
  | (k1, v1) :: rest, k, v =>
    if k1 = k then (k, v) :: rest else (k1, v1) :: ServerMap.set rest k v

/-- The call `m[port].HandleFunc(pattern, h)`: it panics (`none`) when the
port has no entry (a nil mux) or when `HandleFunc` does. -/
def ServerMap.HandleFunc (m : ServerMap) (port : Nat) (pattern : GoString) (h : Handler) :
    Option ServerMap :=
  match m.lookup port with
  | none => none
  | some mux =>
    match mux.HandleFunc pattern h with
    | none => none
    | some mux1 => some (ServerMap.set m port mux1)

/-- Lines 74-76 of `main`: the default handler is registered on every mux of
the map. Go visits the entries in an unspecified order; a visit changes the
visited mux only, so the entries are taken here in the order of the list. -/
def ServerMap.registerDefault : ServerMap → Option ServerMap
  | [] => some []
  | (port, mux) :: rest =>
    match mux.HandleFunc "/".toList Handler.catchall with
    | none => none
    | some mux1 =>
      match ServerMap.registerDefault rest with
      | none => none
      | some rest1 => some ((port, mux1) :: rest1)

/-- Lines 63-76 of `main`: the map `servers` once every route is registered,
or `none` when a registration panics. -/
def servers (cfg : config) : Option ServerMap :=
  let servers : ServerMap :=
    ServerMap.set
      (ServerMap.set (ServerMap.set [] cfg.servingPort NewServeMux) cfg.healthCheckPort NewServeMux)
      cfg.livenessPort NewServeMux
  (ServerMap.HandleFunc servers cfg.servingPort echoPath Handler.echo).bind fun s1 =>
  (ServerMap.HandleFunc s1 cfg.servingPort callPath Handler.call).bind fun s2 =>
  (ServerMap.HandleFunc s2 cfg.healthCheckPort healthPath (Handler.health cfg.healthy)).bind fun s3 =>
  (ServerMap.HandleFunc s3 cfg.livenessPort livePath (Handler.live cfg.livenessDelay)).bind fun s4 =>
  ServerMap.registerDefault s4

/-! ## Vocabulary of the properties -/

/-- The spec's "trimmed of leading/trailing whitespace": `t` is `s` without a
leading run and a trailing run of white space, and `t` neither begins nor ends
with white space. -/
def IsTrimOf (s t : GoString) : Prop :=
  (∃ pre post, s = pre ++ t ++ post ∧ (∀ c ∈ pre, IsSpace c = true) ∧
      (∀ c ∈ post, IsSpace c = true)) ∧
    (∀ c, t.head? = some c → IsSpace c = false) ∧
    (∀ c, t.getLast? = some c → IsSpace c = false)

/-- The request has no usable query target: the key `target` is absent, has no
value, or its first value is empty. -/
def NoQueryTarget (r : Request) : Prop :=
  ∀ X rest, r.Query.lookup "target".toList = some (X :: rest) → X = []

/-- A sample rendering of `%q` for the evaluations below: the text between
double quotes (what `strconv.Quote` gives on text without quotes, backslashes
and control characters). -/
def sampleQuote (s : GoString) : GoString := '"' :: s ++ ['"']


/-- The lines of a text: the pieces between its newlines (a text with `n`
newlines has `n + 1` lines, some possibly empty). -/
def lines : GoString → List GoString
  | [] => [[]]
  | c :: cs =>
    if c = '\n' then [] :: lines cs
    else
      match lines cs with
      | [] => [[c]]
      | l :: ls => (c :: l) :: ls

/-- The text made of the given lines, a newline between two lines. -/
def unlines (ls : List GoString) : GoString := List.intercalate ['\n'] ls

/-- The spec's "every one of its lines prefixed by exactly one tab". -/
def tabEveryLine (D : GoString) : GoString :=
  unlines ((lines D).map fun l => '\t' :: l)

/-- Every non-empty line prefixed by one tab, the empty lines left empty. -/
def tabNonEmptyLines (D : GoString) : GoString :=
  unlines ((lines D).map fun l => if l = [] then [] else '\t' :: l)

/-! ## Lemmas on strings -/

theorem rdropWhile_append_rtakeWhile (p : Char → Bool) (l : GoString) :
    l.rdropWhile p ++ l.rtakeWhile p = l := by
  unfold List.rdropWhile List.rtakeWhile
  rw [← List.reverse_append, List.takeWhile_append_dropWhile, List.reverse_reverse]

theorem TrimSpace_isTrimOf (s : GoString) : IsTrimOf s (TrimSpace s) := by
  refine ⟨⟨s.takeWhile IsSpace, (s.dropWhile IsSpace).rtakeWhile IsSpace, ?_, ?_, ?_⟩, ?_, ?_⟩
  · unfold TrimSpace
    rw [List.append_assoc, rdropWhile_append_rtakeWhile, List.takeWhile_append_dropWhile]
  · intro c hc
    exact List.mem_takeWhile_imp hc
  · intro c hc
    exact List.mem_rtakeWhile_imp hc
  · intro c hc
    unfold TrimSpace at hc
    have hpre : (s.dropWhile IsSpace).rdropWhile IsSpace <+: s.dropWhile IsSpace :=
      List.rdropWhile_prefix IsSpace _
    obtain ⟨u, hu⟩ := hpre
    have hh : (s.dropWhile IsSpace).head? = some c := by
      rw [← hu]
      cases h : (s.dropWhile IsSpace).rdropWhile IsSpace with
      | nil => rw [h] at hc; simp at hc
      | cons a as => rw [h] at hc; simpa using hc
    have := List.head?_dropWhile_not IsSpace s
    rw [hh] at this
    exact this
  · intro c hc
    unfold TrimSpace List.rdropWhile at hc
    rw [List.getLast?_reverse] at hc
    have := List.head?_dropWhile_not IsSpace (s.dropWhile IsSpace).reverse
    rw [hc] at this
    exact this

theorem TrimSpace_eq_nil (s : GoString) (h : ∀ c ∈ s, IsSpace c = true) : TrimSpace s = [] := by
  unfold TrimSpace
  have : s.dropWhile IsSpace = [] := List.dropWhile_eq_nil_iff.mpr h
  rw [this]
  rfl

theorem HasPrefix_iff (s p : GoString) : HasPrefix s p = true ↔ ∃ rest, s = p ++ rest := by
  unfold HasPrefix
  constructor
  · intro h
    simp only [Bool.and_eq_true, decide_eq_true_eq] at h
    refine ⟨s.drop p.length, ?_⟩
    conv_lhs => rw [← List.take_append_drop p.length s]
    rw [h.2]
  · rintro ⟨rest, rfl⟩
    simp

theorem callTarget_of_noQuery (r : Request) (hq : NoQueryTarget r) (herr : r.BodyErr = none) :
    callTarget r = .ok (TrimSpace r.Body) := by
  unfold callTarget
  unfold NoQueryTarget at hq
  rw [herr]
  cases hl : r.Query.lookup "target".toList with
  | none => rfl
  | some ts =>
    cases ts with
    | nil => rfl
    | cons X rest =>
      have := hq X rest hl
      subst this
      rfl

/-! ## The handlers -/

/-- C1 (target resolution): when the query parameter `target` has the non-empty
first value `X`, the target `call` resolves (before the scheme is normalized)
is `X` trimmed of leading and trailing white space, whatever the body and the
outcome of reading it; otherwise, when the body `Y` is read without error, it is
`Y` trimmed. -/
theorem call_target_resolution (r : Request) :
    (∀ X rest, r.Query.lookup "target".toList = some (X :: rest) → X ≠ [] →
      ∀ Y yerr, callTarget { r with Body := Y, BodyErr := yerr } = .ok (TrimSpace X) ∧
        IsTrimOf X (TrimSpace X)) ∧
    (NoQueryTarget r → r.BodyErr = none →
      callTarget r = .ok (TrimSpace r.Body) ∧ IsTrimOf r.Body (TrimSpace r.Body)) := by
  refine ⟨?_, ?_⟩
  · intro X rest hq hX Y yerr
    refine ⟨?_, TrimSpace_isTrimOf X⟩
    unfold callTarget
    simp only [hq, hX, ne_eq, not_false_eq_true, if_true]
    rfl
  · intro hq herr
    exact ⟨callTarget_of_noQuery r hq herr, TrimSpace_isTrimOf _⟩

/-- C1 at two requests: a query target with a body whose read fails, and an
empty query target with a body. -/
theorem call_target_resolution_witness :
    callTarget ⟨[("target".toList, [" example.com ".toList, "b".toList])],
        "ignored.org".toList, some "unexpected EOF".toList⟩ = .ok "example.com".toList ∧
      callTarget ⟨[("target".toList, ["".toList])], "\texample.org\n".toList, none⟩
        = .ok "example.org".toList := by
  refine ⟨?_, ?_⟩
  · exact ((call_target_resolution
      ⟨[("target".toList, [" example.com ".toList, "b".toList])], [], none⟩).1
      " example.com ".toList ["b".toList] (by rfl) (by decide)
      "ignored.org".toList (some "unexpected EOF".toList)).1
  · exact ((call_target_resolution
      ⟨[("target".toList, ["".toList])], "\texample.org\n".toList, none⟩).2
      (by
        intro X rest h
        simp only [List.lookup, String.toList] at h
        simp at h
        exact h.1) (by rfl)).1

/-- C2 (empty target rejection): with no usable query target and a body, read
without error, that is empty or all white space, `call` answers 500 with the
instruction text and passes no URL to `http.Get`. -/
theorem empty_target_rejection (cfg : config) (Quote : GoString → GoString)
    (Get : GoString → Except GoString Response) (r : Request)
    (hq : NoQueryTarget r) (herr : r.BodyErr = none)
    (hws : ∀ c ∈ r.Body, IsSpace c = true) :
    cfg.call Quote Get ResponseWriter.fresh r =
      (⟨true, 500,
        "No target to call - use the ?target query parameter or pass a URL as the request body.".toList⟩,
        []) := by
  unfold config.call
  rw [callTarget_of_noQuery r hq herr, TrimSpace_eq_nil _ hws]
  rfl

/-- C2 at a body of a blank, a tab and a newline. -/
theorem empty_target_rejection_witness :
    config.call ⟨9000, 9000, 9000, true, 1000, "probe".toList⟩ sampleQuote (fun _ => .ok ⟨200, "never".toList, none⟩) ResponseWriter.fresh
        ⟨[], " \t\n".toList, none⟩ =
      (⟨true, 500,
        "No target to call - use the ?target query parameter or pass a URL as the request body.".toList⟩,
        []) := by
  exact empty_target_rejection ⟨9000, 9000, 9000, true, 1000, "probe".toList⟩ sampleQuote _
    ⟨[], " \t\n".toList, none⟩ (by intro X rest h; simp [List.lookup] at h) (by rfl) (by decide)

theorem call_gets (cfg : config) (Quote : GoString → GoString)
    (Get : GoString → Except GoString Response) (w : ResponseWriter) (r : Request)
    (t : GoString) (ht : callTarget r = .ok t) (hne : t ≠ []) :
    (cfg.call Quote Get w r).2 = [callURL t] := by
  unfold config.call
  rw [ht]
  have hlen : ¬ t.length = 0 := by
    intro h
    exact hne (List.length_eq_zero.mp h)
  simp only [hlen, if_false]
  cases Get (callURL t) <;> rfl

/-- C3 (scheme normalization): for a request whose trimmed target `t` is not
empty, the URL `call` passes to `http.Get` is `t` itself when `t` begins with
the four characters `http`, and `http://` followed by `t` otherwise. -/
theorem scheme_normalization (cfg : config) (Quote : GoString → GoString)
    (Get : GoString → Except GoString Response) (w : ResponseWriter) (r : Request)
    (t : GoString) (ht : callTarget r = .ok t) (hne : t ≠ []) :
    ((∃ rest, t = "http".toList ++ rest) → (cfg.call Quote Get w r).2 = [t]) ∧
    ((¬ ∃ rest, t = "http".toList ++ rest) →
      (cfg.call Quote Get w r).2 = ["http://".toList ++ t]) := by
  rw [call_gets cfg Quote Get w r t ht hne]
  unfold callURL
  constructor
  · intro h
    have := (HasPrefix_iff t "http".toList).mpr h
    rw [this]
    rfl
  · intro h
    have : HasPrefix t "http".toList = false := by
      cases hp : HasPrefix t "http".toList with
      | false => rfl
      | true => exact absurd ((HasPrefix_iff t "http".toList).mp hp) h
    rw [this]
    rfl

/-- C3 at the targets `example.com`, `https://example.com` and
`httpX://example.com`. -/
theorem scheme_normalization_witness :
    (config.call ⟨9000, 9000, 9000, true, 1000, "probe".toList⟩ sampleQuote
        (fun _ => .error "refused".toList) ResponseWriter.fresh
        ⟨[("target".toList, ["example.com".toList])], [], none⟩).2
      = ["http://example.com".toList] ∧
    (config.call ⟨9000, 9000, 9000, true, 1000, "probe".toList⟩ sampleQuote
        (fun _ => .error "refused".toList) ResponseWriter.fresh
        ⟨[("target".toList, ["https://example.com".toList])], [], none⟩).2
      = ["https://example.com".toList] ∧
    (config.call ⟨9000, 9000, 9000, true, 1000, "probe".toList⟩ sampleQuote
        (fun _ => .error "refused".toList) ResponseWriter.fresh
        ⟨[], "httpX://example.com".toList, none⟩).2
      = ["httpX://example.com".toList] := by
  refine ⟨?_, ?_, ?_⟩
  · exact (scheme_normalization _ _ _ _ _ "example.com".toList (by rfl) (by decide)).2
      (by
        rintro ⟨rest, h⟩
        simp at h)
  · exact (scheme_normalization _ _ _ _ _ "https://example.com".toList (by rfl) (by decide)).1
      ⟨"s://example.com".toList, by rfl⟩
  · exact (scheme_normalization _ _ _ _ _ "httpX://example.com".toList (by rfl) (by decide)).1
      ⟨"X://example.com".toList, by rfl⟩

/-- C5 (call failure relay), the code at a failing input: the target is
`127.0.0.1:1` and `http.Get` fails with the error `e`. `call` writes the body
`<id> GET <quoted target> failed: <e>` first, which sends the header with
status 200; the `WriteHeader(500)` that follows changes nothing, so the
response status is 200 and not 500. -/
theorem call_failure_relay_status (cfg : config) (Quote : GoString → GoString)
    (e Y : GoString) (yerr : Option GoString) :
    cfg.call Quote (fun _ => .error e) ResponseWriter.fresh
        ⟨[("target".toList, ["127.0.0.1:1".toList])], Y, yerr⟩ =
      (⟨true, 200, cfg.id ++ " GET ".toList ++ Quote "http://127.0.0.1:1".toList
          ++ " failed: ".toList ++ e⟩, ["http://127.0.0.1:1".toList]) ∧
    (cfg.call Quote (fun _ => .error e) ResponseWriter.fresh
        ⟨[("target".toList, ["127.0.0.1:1".toList])], Y, yerr⟩).1.status ≠ 500 := by
  have h : cfg.call Quote (fun _ => .error e) ResponseWriter.fresh
        ⟨[("target".toList, ["127.0.0.1:1".toList])], Y, yerr⟩ =
      (⟨true, 200, cfg.id ++ " GET ".toList ++ Quote "http://127.0.0.1:1".toList
          ++ " failed: ".toList ++ e⟩, ["http://127.0.0.1:1".toList]) := by
    rfl
  refine ⟨h, ?_⟩
  rw [h]
  show (200 : Nat) ≠ 500
  decide

/-- C6 as stated fails at the deadline itself: with start 0 and delay 1000 the
deadline is 1000, and a request at time 1000 gets status 503 with an empty
body, not status 200 with `<id> - live`. -/
theorem live_at_deadline_counterexample :
    (1000 : Int) ≥ 0 + 1000 ∧
    ¬ ((config.live ⟨9000, 9000, 9000, true, 1000, "probe".toList⟩ 1000 0 1000
          ResponseWriter.fresh ⟨[], [], none⟩).status = 200 ∧
        (config.live ⟨9000, 9000, 9000, true, 1000, "probe".toList⟩ 1000 0 1000
          ResponseWriter.fresh ⟨[], [], none⟩).body = "probe - live".toList) ∧
    config.live ⟨9000, 9000, 9000, true, 1000, "probe".toList⟩ 1000 0 1000
        ResponseWriter.fresh ⟨[], [], none⟩ = ⟨true, 503, []⟩ := by
  decide

/-- C6, amended (liveness threshold): with deadline = start + delay, the live
handler answers 503 with an empty body when now ≤ deadline (the deadline
included), and 200 with body `<id> - live` when now > deadline. -/
theorem liveness_threshold (cfg : config) (delay start now : Int) (r : Request) :
    cfg.live delay start now ResponseWriter.fresh r =
      if now ≤ start + delay then ⟨true, 503, []⟩
      else ⟨true, 200, cfg.id ++ " - live".toList⟩ := by
  unfold config.live
  by_cases h : now ≤ start + delay
  · have h2 : ¬ now > start + delay := not_lt.mpr h
    simp only [h, h2, if_true, if_false]
    rfl
  · have h2 : now > start + delay := not_le.mp h
    simp only [h, h2, if_true, if_false]
    simp [Fprintf, ResponseWriter.Write, ResponseWriter.WriteHeader, ResponseWriter.fresh]

/-- C7 (health toggle): the handler built by `health(healthy)` answers 200 with
body `<id> - healthy` when `healthy` is true and 503 with an empty body when it
is false, the same for every request. -/
theorem health_toggle (cfg : config) (healthy : Bool) (r r2 : Request) :
    cfg.health healthy ResponseWriter.fresh r =
      (if healthy then ⟨true, 200, cfg.id ++ " - healthy".toList⟩ else ⟨true, 503, []⟩) ∧
    cfg.health healthy ResponseWriter.fresh r = cfg.health healthy ResponseWriter.fresh r2 := by
  refine ⟨?_, rfl⟩
  cases healthy
  · rfl
  · simp [config.health, Fprintf, ResponseWriter.Write, ResponseWriter.WriteHeader,
      ResponseWriter.fresh]

/-- C8 (echo): a request whose body `B` is read without error gets status 200
and the body `<id> echoing: ` followed by `B` unchanged. -/
theorem echo_body (cfg : config) (q : List (GoString × List GoString)) (B : GoString) :
    cfg.echo ResponseWriter.fresh ⟨q, B, none⟩ =
      ⟨true, 200, cfg.id ++ " echoing: ".toList ++ B⟩ := by
  simp [config.echo, Fprintf, ResponseWriter.Write, ResponseWriter.WriteHeader,
    ResponseWriter.fresh]

/-- C9 as stated fails for `call`: with no query target and a body read that
fails after `example.com`, the answer is 500 with an empty body and no
outbound GET, while the same bytes read without error produce the report of the
call to `http://example.com`. -/
theorem call_body_read_error_counterexample :
    config.call ⟨9000, 9000, 9000, true, 1000, "probe".toList⟩ sampleQuote
        (fun _ => .ok ⟨200, "pong".toList, none⟩) ResponseWriter.fresh
        ⟨[], "example.com".toList, some "unexpected EOF".toList⟩ = (⟨true, 500, []⟩, []) ∧
    (config.call ⟨9000, 9000, 9000, true, 1000, "probe".toList⟩ sampleQuote
        (fun _ => .ok ⟨200, "pong".toList, none⟩) ResponseWriter.fresh
        ⟨[], "example.com".toList, none⟩).1.body =
      "Server:\n\tprobe\nCalled:\n\thttp://example.com\nResponse Status Code:\n\t200\nResponse Body:\n\tpong".toList ∧
    (config.call ⟨9000, 9000, 9000, true, 1000, "probe".toList⟩ sampleQuote
        (fun _ => .ok ⟨200, "pong".toList, none⟩) ResponseWriter.fresh
        ⟨[], "example.com".toList, some "unexpected EOF".toList⟩).1.body ≠
      (config.call ⟨9000, 9000, 9000, true, 1000, "probe".toList⟩ sampleQuote
        (fun _ => .ok ⟨200, "pong".toList, none⟩) ResponseWriter.fresh
        ⟨[], "example.com".toList, none⟩).1.body := by
  decide

/-- C9, amended (body-read error policy): when reading the body fails after the
bytes `B`, `echo` and `catchall` answer 500 and still write their normal output
from `B`; `call` (with no usable query target) answers 500 and returns at once,
with an empty body and no outbound GET. -/
theorem body_read_error_policy (cfg : config) (Quote : GoString → GoString)
    (Get : GoString → Except GoString Response)
    (q : List (GoString × List GoString)) (B err : GoString) :
    cfg.echo ResponseWriter.fresh ⟨q, B, some err⟩ =
      ⟨true, 500, cfg.id ++ " echoing: ".toList ++ B⟩ ∧
    cfg.catchall Quote ResponseWriter.fresh ⟨q, B, some err⟩ =
      ⟨true, 500, cfg.id ++ " default handler echoing: ".toList ++ Quote B⟩ ∧
    (NoQueryTarget ⟨q, B, some err⟩ →
      cfg.call Quote Get ResponseWriter.fresh ⟨q, B, some err⟩ = (⟨true, 500, []⟩, [])) := by
  refine ⟨?_, ?_, ?_⟩
  · simp [config.echo, Fprintf, ResponseWriter.Write, ResponseWriter.WriteHeader,
      ResponseWriter.fresh, StatusInternalServerError]
  · simp [config.catchall, Fprintf, ResponseWriter.Write, ResponseWriter.WriteHeader,
      ResponseWriter.fresh, StatusInternalServerError]
  · intro hq
    have ht : callTarget ⟨q, B, some err⟩ = .error err := by
      unfold callTarget
      unfold NoQueryTarget at hq
      cases hl : List.lookup "target".toList q with
      | none => simp only [hl]; rfl
      | some ts =>
        cases ts with
        | nil => simp only [hl]; rfl
        | cons X rest =>
          have := hq X rest hl
          subst this
          simp only [hl]
          rfl
    unfold config.call
    rw [ht]
    rfl

/-- C9, amended, at a `call` request whose body read fails. -/
theorem body_read_error_policy_witness :
    config.call ⟨9000, 9000, 9000, true, 1000, "probe".toList⟩ sampleQuote
        (fun _ => .ok ⟨200, "pong".toList, none⟩) ResponseWriter.fresh
        ⟨[], "example.com".toList, some "unexpected EOF".toList⟩ = (⟨true, 500, []⟩, []) :=
  (body_read_error_policy ⟨9000, 9000, 9000, true, 1000, "probe".toList⟩ sampleQuote
    (fun _ => .ok ⟨200, "pong".toList, none⟩) [] "example.com".toList
    "unexpected EOF".toList).2.2 (by intro X rest h; simp [List.lookup] at h)

/-! ## Lemmas on `Indent` -/

theorem lines_ne_nil (s : GoString) : lines s ≠ [] := by
  cases s with
  | nil => simp [lines]
  | cons c cs =>
    unfold lines
    split
    · simp
    · split <;> simp

theorem unlines_lines (s : GoString) : unlines (lines s) = s := by
  induction s with
  | nil => rfl
  | cons c cs ih =>
    unfold lines
    by_cases hc : c = '\n'
    · simp only [hc, if_true]
      cases h : lines cs with
      | nil => exact absurd h (lines_ne_nil cs)
      | cons l ls =>
        rw [h] at ih
        rw [← ih]
        simp [unlines, List.intercalate]
    · simp only [hc, if_false]
      cases h : lines cs with
      | nil => exact absurd h (lines_ne_nil cs)
      | cons l ls =>
        rw [h] at ih
        rw [← ih]
        cases ls <;> simp [unlines, List.intercalate]

theorem unlines_append_head (a l : GoString) (ls : List GoString) :
    unlines ((a ++ l) :: ls) = a ++ unlines (l :: ls) := by
  cases ls <;> simp [unlines, List.intercalate]

theorem IndentBytes_loop (pfx s : GoString) :
    ∀ res : GoString,
      (s.foldl
        (fun (st : GoString × Bool) (c : Char) =>
          ((if st.2 && c != '\n' then st.1 ++ pfx else st.1) ++ [c], c == '\n'))
        (res, true)).1
        = res ++ unlines ((lines s).map fun l => if l = [] then [] else pfx ++ l) ∧
      (s.foldl
        (fun (st : GoString × Bool) (c : Char) =>
          ((if st.2 && c != '\n' then st.1 ++ pfx else st.1) ++ [c], c == '\n'))
        (res, false)).1
        = res ++ (match lines s with
          | [] => []
          | l :: ls => unlines (l :: ls.map fun l => if l = [] then [] else pfx ++ l)) := by
  induction s with
  | nil =>
    intro res
    simp [lines, unlines, List.intercalate]
  | cons c cs ih =>
    intro res
    by_cases hc : c = '\n'
    · subst hc
      cases h : lines cs with
      | nil => exact absurd h (lines_ne_nil cs)
      | cons l ls =>
        have ih1 := (ih (res ++ ['\n'])).1
        rw [h] at ih1
        simp only [List.foldl_cons, lines, if_true, h]
        simp only [bne_self_eq_false, Bool.and_false, Bool.false_eq_true, if_false, beq_self_eq_true]
        rw [ih1]
        simp [unlines, List.intercalate]
    · cases h : lines cs with
      | nil => exact absurd h (lines_ne_nil cs)
      | cons l ls =>
        have ih2 := fun r => (ih r).2
        simp only [h] at ih2
        have hb : (c == '\n') = false := by simpa using hc
        have hn : (c != '\n') = true := by simpa using hc
        simp only [List.foldl_cons, lines, hc, if_false, h, hb, hn, Bool.and_true, Bool.true_and,
          Bool.false_and, Bool.false_eq_true, if_true, List.map_cons]
        rw [ih2, ih2]
        have hcl : (c :: l = []) = False := by simp
        simp only [hcl, if_false]
        constructor
        · rw [show pfx ++ c :: l = (pfx ++ [c]) ++ l by simp, unlines_append_head]
          simp
        · rw [show c :: l = [c] ++ l by simp, unlines_append_head]
          simp

theorem Indent_tab (D : GoString) : Indent D "\t".toList = tabNonEmptyLines D := by
  unfold Indent IndentBytes tabNonEmptyLines
  have h := (IndentBytes_loop "\t".toList D []).1
  simpa using h

/-- C4 as stated fails on a downstream body with an empty line: for the body
`a`, empty line, `b` (status 201) the relayed text leaves the empty line as it
is, where prefixing every line would put a tab on it. -/
theorem call_relay_blank_line_counterexample :
    tabEveryLine "a\n\nb".toList = "\ta\n\t\n\tb".toList ∧
    (config.call ⟨9000, 9000, 9000, true, 1000, "probe".toList⟩ sampleQuote
        (fun _ => .ok ⟨201, "a\n\nb".toList, none⟩) ResponseWriter.fresh
        ⟨[("target".toList, ["example.com".toList])], [], none⟩).1 =
      ⟨true, 200,
        "Server:\n\tprobe\nCalled:\n\thttp://example.com\nResponse Status Code:\n\t201\nResponse Body:\n\ta\n\n\tb".toList⟩ ∧
    (config.call ⟨9000, 9000, 9000, true, 1000, "probe".toList⟩ sampleQuote
        (fun _ => .ok ⟨201, "a\n\nb".toList, none⟩) ResponseWriter.fresh
        ⟨[("target".toList, ["example.com".toList])], [], none⟩).1.body ≠
      "Server:\n\tprobe\nCalled:\n\thttp://example.com\nResponse Status Code:\n\t201\nResponse Body:\n".toList
        ++ tabEveryLine "a\n\nb".toList := by
  decide

/-- C4, amended (call relay on success): when `http.Get` succeeds with status
code `c` (of any class) and the downstream body `D` is read without error,
`call` answers 200 with the fixed template holding the instance id, the called
URL, the decimal status code, and `D` with every non-empty line prefixed by
exactly one tab (empty lines stay empty). -/
theorem call_relay_success (cfg : config) (Quote : GoString → GoString)
    (Get : GoString → Except GoString Response) (r : Request) (t : GoString)
    (c : Int) (D : GoString)
    (ht : callTarget r = .ok t) (hne : t ≠ [])
    (hget : Get (callURL t) = .ok ⟨c, D, none⟩) :
    cfg.call Quote Get ResponseWriter.fresh r =
      (⟨true, 200,
        "Server:\n\t".toList ++ cfg.id ++ "\nCalled:\n\t".toList ++ callURL t
          ++ "\nResponse Status Code:\n\t".toList ++ formatInt c
          ++ "\nResponse Body:\n".toList ++ tabNonEmptyLines D⟩, [callURL t]) := by
  unfold config.call
  rw [ht]
  have hlen : ¬ t.length = 0 := by
    intro h
    exact hne (List.length_eq_zero.mp h)
  simp only [hlen, if_false, hget]
  simp only [Fprintf, ResponseWriter.Write, ResponseWriter.WriteHeader, ResponseWriter.fresh,
    callReport, callBody, Indent_tab]
  simp

/-- C4, amended, at a downstream answer 201 with two lines. -/
theorem call_relay_success_witness :
    config.call ⟨9000, 9000, 9000, true, 1000, "probe".toList⟩ sampleQuote
        (fun _ => .ok ⟨201, "hello\nworld".toList, none⟩) ResponseWriter.fresh
        ⟨[("target".toList, ["example.com".toList])], [], none⟩ =
      (⟨true, 200,
        "Server:\n\tprobe\nCalled:\n\thttp://example.com\nResponse Status Code:\n\t201\nResponse Body:\n\thello\n\tworld".toList⟩,
        ["http://example.com".toList]) :=
  call_relay_success ⟨9000, 9000, 9000, true, 1000, "probe".toList⟩ sampleQuote
    (fun _ => .ok ⟨201, "hello\nworld".toList, none⟩)
    ⟨[("target".toList, ["example.com".toList])], [], none⟩ "example.com".toList 201
    "hello\nworld".toList (by rfl) (by decide) (by rfl)


/-! ## The listener set: lemmas on the server map -/

theorem ServerMap.lookup_set (m : ServerMap) (k p : Nat) (v : ServeMux) :
    List.lookup p (ServerMap.set m k v) = if p = k then some v else List.lookup p m := by
  induction m with
  | nil =>
    by_cases h : p = k
    · subst h
      simp [ServerMap.set, List.lookup]
    · have hb : (p == k) = false := by simpa using h
      simp [ServerMap.set, List.lookup, hb, h]
  | cons e rest ih =>
    obtain ⟨k1, v1⟩ := e
    unfold ServerMap.set
    by_cases h1 : k1 = k
    · subst h1
      by_cases h : p = k1
      · subst h
        simp [List.lookup]
      · have hb : (p == k1) = false := by simpa using h
        simp [List.lookup, hb, h]
    · simp only [h1, if_false]
      by_cases h2 : p = k1
      · subst h2
        simp [List.lookup, h1]
      · have hb : (p == k1) = false := by simpa using h2
        simp only [List.lookup, hb, ih]

theorem ServerMap.mem_keys_set (m : ServerMap) (k p : Nat) (v : ServeMux) :
    p ∈ (ServerMap.set m k v).map Prod.fst ↔ p = k ∨ p ∈ m.map Prod.fst := by
  induction m with
  | nil => simp [ServerMap.set]
  | cons e rest ih =>
    obtain ⟨k1, v1⟩ := e
    unfold ServerMap.set
    by_cases h1 : k1 = k
    · subst h1
      simp
    · simp only [h1, if_false, List.map_cons, List.mem_cons, ih]
      tauto

theorem ServerMap.nodup_keys_set (m : ServerMap) (k : Nat) (v : ServeMux)
    (h : (m.map Prod.fst).Nodup) : ((ServerMap.set m k v).map Prod.fst).Nodup := by
  induction m with
  | nil => simp [ServerMap.set]
  | cons e rest ih =>
    obtain ⟨k1, v1⟩ := e
    unfold ServerMap.set
    by_cases h1 : k1 = k
    · subst h1
      simpa using h
    · simp only [h1, if_false, List.map_cons, List.nodup_cons] at h ⊢
      refine ⟨?_, ih h.2⟩
      rw [ServerMap.mem_keys_set]
      intro hc
      rcases hc with hc | hc
      · exact h1 hc
      · exact h.1 hc

theorem ServerMap.lookup_of_mem (m : ServerMap) (p : Nat) (mux : ServeMux)
    (hn : (m.map Prod.fst).Nodup) (h : (p, mux) ∈ m) : List.lookup p m = some mux := by
  induction m with
  | nil => simp at h
  | cons e rest ih =>
    obtain ⟨k1, v1⟩ := e
    simp only [List.map_cons, List.nodup_cons] at hn
    rcases List.mem_cons.mp h with h0 | h0
    · injection h0 with h1 h2
      subst h1; subst h2
      simp [List.lookup]
    · have hne : p ≠ k1 := by
        intro hc
        subst hc
        exact hn.1 (List.mem_map.mpr ⟨(p, mux), h0, rfl⟩)
      have hb : (p == k1) = false := by simpa using hne
      simp only [List.lookup, hb]
      exact ih hn.2 h0

theorem ServerMap.HandleFunc_eq (m : ServerMap) (port : Nat) (pattern : GoString) (h : Handler)
    (mux : ServeMux) (hl : List.lookup port m = some mux) (hp : pattern ≠ [])
    (hn : List.lookup pattern mux.m = none) :
    ServerMap.HandleFunc m port pattern h =
      some (ServerMap.set m port ⟨mux.m ++ [(pattern, h)]⟩) := by
  unfold ServerMap.HandleFunc ServeMux.HandleFunc
  simp [hl, hp, hn]

theorem ServerMap.registerDefault_eq (m : ServerMap)
    (h : ∀ p mux, (p, mux) ∈ m → List.lookup "/".toList mux.m = none) :
    ServerMap.registerDefault m =
      some (m.map fun e => (e.1, ⟨e.2.m ++ [("/".toList, Handler.catchall)]⟩)) := by
  induction m with
  | nil => rfl
  | cons e rest ih =>
    obtain ⟨k1, v1⟩ := e
    have h1 : List.lookup ['/'] v1.m = none := h k1 v1 (List.mem_cons_self _ _)
    have ih1 := ih (fun p mux hm => h p mux (List.mem_cons_of_mem _ hm))
    unfold ServerMap.registerDefault ServeMux.HandleFunc
    rw [ih1]
    simp [h1]

theorem routes_spec (sp hp lp p : Nat) (healthy : Bool) (delay : Int) :
    (List.map Prod.fst
      ((if p = sp then [(echoPath, Handler.echo), (callPath, Handler.call)] else [])
        ++ (if p = hp then [(healthPath, Handler.health healthy)] else [])
        ++ (if p = lp then [(livePath, Handler.live delay)] else [])
        ++ [("/".toList, Handler.catchall)])).Nodup ∧
    ∀ path h, (path, h) ∈
      ((if p = sp then [(echoPath, Handler.echo), (callPath, Handler.call)] else [])
        ++ (if p = hp then [(healthPath, Handler.health healthy)] else [])
        ++ (if p = lp then [(livePath, Handler.live delay)] else [])
        ++ [("/".toList, Handler.catchall)]) ↔
      (p = sp ∧ path = "/echo".toList ∧ h = Handler.echo) ∨
      (p = sp ∧ path = "/call".toList ∧ h = Handler.call) ∨
      (p = hp ∧ path = "/health".toList ∧ h = Handler.health healthy) ∨
      (p = lp ∧ path = "/live".toList ∧ h = Handler.live delay) ∨
      (path = "/".toList ∧ h = Handler.catchall) := by
  split_ifs
  all_goals
    subst_vars
    refine ⟨by simp [echoPath, callPath, healthPath, livePath], ?_⟩
    intro path h
    simp [echoPath, callPath, healthPath, livePath, *]

/-- C10 (port sharing): for every choice of the three ports no registration
panics, the map `servers` has exactly one mux per distinct configured port, and
the mux of port `p` holds exactly the paths of the roles configured on `p`
(`/echo` and `/call` for serving, `/health` for health, `/live` for liveness)
and the catch-all `/`, each path once and with the handler of its own role. -/
theorem port_sharing (cfg : config) :
    ∃ s : ServerMap, servers cfg = some s ∧
      (s.map Prod.fst).Nodup ∧
      (∀ p, p ∈ s.map Prod.fst ↔
        p = cfg.servingPort ∨ p = cfg.healthCheckPort ∨ p = cfg.livenessPort) ∧
      ∀ p mux, (p, mux) ∈ s →
        (mux.m.map Prod.fst).Nodup ∧
        ∀ path h, (path, h) ∈ mux.m ↔
          (p = cfg.servingPort ∧ path = "/echo".toList ∧ h = Handler.echo) ∨
          (p = cfg.servingPort ∧ path = "/call".toList ∧ h = Handler.call) ∨
          (p = cfg.healthCheckPort ∧ path = "/health".toList ∧ h = Handler.health cfg.healthy) ∨
          (p = cfg.livenessPort ∧ path = "/live".toList ∧ h = Handler.live cfg.livenessDelay) ∨
          (path = "/".toList ∧ h = Handler.catchall) := by
  obtain ⟨sp, hp, lp, healthy, delay, id⟩ := cfg
  simp only
  -- the map literal
  have hs0 : ∃ s0 : ServerMap, s0 = ServerMap.set (ServerMap.set (ServerMap.set [] sp NewServeMux)
      hp NewServeMux) lp NewServeMux := ⟨_, rfl⟩
  obtain ⟨s0, hs0⟩ := hs0
  have hn0 : (s0.map Prod.fst).Nodup := by
    rw [hs0]
    exact ServerMap.nodup_keys_set _ _ _ (ServerMap.nodup_keys_set _ _ _
      (ServerMap.nodup_keys_set _ _ _ List.nodup_nil))
  have hk0 : ∀ p, p ∈ s0.map Prod.fst ↔ p = sp ∨ p = hp ∨ p = lp := by
    intro p
    rw [hs0]
    simp only [ServerMap.mem_keys_set, List.map_nil, List.not_mem_nil, or_false]
    tauto
  have hl0 : ∀ p, List.lookup p s0 =
      if p = lp then some NewServeMux else if p = hp then some NewServeMux
      else if p = sp then some NewServeMux else none := by
    intro p
    rw [hs0]
    rw [ServerMap.lookup_set, ServerMap.lookup_set, ServerMap.lookup_set]
    rfl
  -- the four role registrations
  have e1 : ServerMap.HandleFunc s0 sp echoPath Handler.echo =
      some (ServerMap.set s0 sp ⟨[(echoPath, Handler.echo)]⟩) := by
    refine ServerMap.HandleFunc_eq s0 sp _ _ NewServeMux ?_ (by decide) rfl
    rw [hl0]
    split_ifs <;> first | rfl | (exfalso; omega)
  obtain ⟨s1, hs1⟩ : ∃ s1 : ServerMap, s1 = ServerMap.set s0 sp ⟨[(echoPath, Handler.echo)]⟩ :=
    ⟨_, rfl⟩
  rw [← hs1] at e1
  have e2 : ServerMap.HandleFunc s1 sp callPath Handler.call =
      some (ServerMap.set s1 sp ⟨[(echoPath, Handler.echo), (callPath, Handler.call)]⟩) := by
    refine ServerMap.HandleFunc_eq s1 sp _ _ ⟨[(echoPath, Handler.echo)]⟩ ?_ (by decide) rfl
    rw [hs1, ServerMap.lookup_set, if_pos rfl]
  obtain ⟨s2, hs2⟩ : ∃ s2 : ServerMap,
      s2 = ServerMap.set s1 sp ⟨[(echoPath, Handler.echo), (callPath, Handler.call)]⟩ := ⟨_, rfl⟩
  rw [← hs2] at e2
  have hl2 : ∀ p, List.lookup p s2 =
      if p = sp then some ⟨[(echoPath, Handler.echo), (callPath, Handler.call)]⟩
      else if p = lp then some NewServeMux else if p = hp then some NewServeMux else none := by
    intro p
    rw [hs2, hs1, ServerMap.lookup_set, ServerMap.lookup_set, hl0]
    split_ifs <;> rfl
  obtain ⟨a3, ha3⟩ : ∃ a3 : List (GoString × Handler),
      a3 = if hp = sp then [(echoPath, Handler.echo), (callPath, Handler.call)] else [] :=
    ⟨_, rfl⟩
  have e3 : ServerMap.HandleFunc s2 hp healthPath (Handler.health healthy) =
      some (ServerMap.set s2 hp ⟨a3 ++ [(healthPath, Handler.health healthy)]⟩) := by
    refine ServerMap.HandleFunc_eq s2 hp _ _ ⟨a3⟩ ?_ (by decide) ?_
    · rw [hl2, ha3]
      split_ifs <;> first | rfl | (exfalso; omega)
    · rw [ha3]
      split_ifs <;> rfl
  obtain ⟨s3, hs3⟩ : ∃ s3 : ServerMap,
      s3 = ServerMap.set s2 hp ⟨a3 ++ [(healthPath, Handler.health healthy)]⟩ := ⟨_, rfl⟩
  rw [← hs3] at e3
  have hl3 : ∀ p, List.lookup p s3 =
      if p = hp then some ⟨a3 ++ [(healthPath, Handler.health healthy)]⟩
      else if p = sp then some ⟨[(echoPath, Handler.echo), (callPath, Handler.call)]⟩
      else if p = lp then some NewServeMux else none := by
    intro p
    rw [hs3, ServerMap.lookup_set, hl2]
    split_ifs <;> rfl
  obtain ⟨a4, ha4⟩ : ∃ a4 : List (GoString × Handler),
      a4 = if lp = hp then a3 ++ [(healthPath, Handler.health healthy)]
        else if lp = sp then [(echoPath, Handler.echo), (callPath, Handler.call)] else [] :=
    ⟨_, rfl⟩
  have e4 : ServerMap.HandleFunc s3 lp livePath (Handler.live delay) =
      some (ServerMap.set s3 lp ⟨a4 ++ [(livePath, Handler.live delay)]⟩) := by
    refine ServerMap.HandleFunc_eq s3 lp _ _ ⟨a4⟩ ?_ (by decide) ?_
    · rw [hl3, ha4]
      split_ifs <;> first | rfl | (exfalso; omega)
    · rw [ha4, ha3]
      split_ifs <;> rfl
  obtain ⟨s4, hs4⟩ : ∃ s4 : ServerMap,
      s4 = ServerMap.set s3 lp ⟨a4 ++ [(livePath, Handler.live delay)]⟩ := ⟨_, rfl⟩
  rw [← hs4] at e4
  have hl4 : ∀ p, List.lookup p s4 =
      if p = lp then some ⟨a4 ++ [(livePath, Handler.live delay)]⟩
      else if p = hp then some ⟨a3 ++ [(healthPath, Handler.health healthy)]⟩
      else if p = sp then some ⟨[(echoPath, Handler.echo), (callPath, Handler.call)]⟩
      else none := by
    intro p
    rw [hs4, ServerMap.lookup_set, hl3]
    split_ifs <;> rfl
  have hn4 : (s4.map Prod.fst).Nodup := by
    rw [hs4, hs3, hs2, hs1]
    exact ServerMap.nodup_keys_set _ _ _ (ServerMap.nodup_keys_set _ _ _
      (ServerMap.nodup_keys_set _ _ _ (ServerMap.nodup_keys_set _ _ _ hn0)))
  have hk4 : ∀ p, p ∈ s4.map Prod.fst ↔ p = sp ∨ p = hp ∨ p = lp := by
    intro p
    rw [hs4, hs3, hs2, hs1]
    simp only [ServerMap.mem_keys_set, hk0]
    tauto
  -- the routes of each port before the default handler is added
  have hroutes : ∀ p mux, (p, mux) ∈ s4 → mux.m =
      (if p = sp then [(echoPath, Handler.echo), (callPath, Handler.call)] else [])
        ++ (if p = hp then [(healthPath, Handler.health healthy)] else [])
        ++ (if p = lp then [(livePath, Handler.live delay)] else []) := by
    intro p mux hmem
    have hl := ServerMap.lookup_of_mem s4 p mux hn4 hmem
    rw [hl4, ha4, ha3] at hl
    have hin : p = sp ∨ p = hp ∨ p = lp :=
      (hk4 p).mp (List.mem_map.mpr ⟨(p, mux), hmem, rfl⟩)
    by_cases c1 : p = sp <;> by_cases c2 : p = hp <;> by_cases c3 : p = lp
    all_goals first
      | (exfalso; omega)
      | (subst_vars
         simp_all
         try (rw [← hl]))
  have hdef : ServerMap.registerDefault s4 =
      some (s4.map fun e => (e.1, ⟨e.2.m ++ [("/".toList, Handler.catchall)]⟩)) := by
    apply ServerMap.registerDefault_eq
    intro p mux hmem
    rw [hroutes p mux hmem]
    split_ifs <;> rfl
  have hkeys : (s4.map fun e => (e.1, (⟨e.2.m ++ [("/".toList, Handler.catchall)]⟩ : ServeMux))).map
      Prod.fst = s4.map Prod.fst := by
    rw [List.map_map]
    rfl
  refine ⟨s4.map fun e => (e.1, ⟨e.2.m ++ [("/".toList, Handler.catchall)]⟩), ?_, ?_, ?_, ?_⟩
  · unfold servers
    simp only
    rw [← hs0, e1, Option.some_bind, e2, Option.some_bind, e3, Option.some_bind, e4,
      Option.some_bind, hdef]
  · rw [hkeys]
    exact hn4
  · intro p
    rw [hkeys]
    exact hk4 p
  · intro p mux1 hmem1
    obtain ⟨⟨p0, mux⟩, hmem, heq⟩ := List.mem_map.mp hmem1
    injection heq with hp0 hmux
    subst hp0
    subst hmux
    have hr := hroutes p0 mux hmem
    have hspec := routes_spec sp hp lp p0 healthy delay
    rw [← hr] at hspec
    exact hspec

end TestServer
